import Mathlib

/-!
Verification of the record extractors of the Survival-Project repository.

The repository loads item, monster and recipe definitions from JSON-like
text files with three line-oriented readers (`load_items`, `load_monsters`,
`load_recipes`).  This file embeds those readers over `List Char` lines and
proves properties of them.  A file's content is modelled as the list of
lines that `std::getline` would produce; an unopenable source is modelled
as `none` at the file-level wrappers.  `size_t` positions are modelled as
`Nat` with the C++ `npos` value `2^64 - 1` and explicit wrap-around
`% 2^64` where the C++ code adds one to a possibly-`npos` position.
The bare `std::stoi` call of `load_recipes` can throw, so the embedded
`load_recipes` returns `Option (List Recipe)`, `none` meaning the C++
function is aborted by the exception.
-/

set_option autoImplicit false

namespace Survival

/-- Lines and values are lists of characters, mirroring `std::string`. -/
abbrev Str := List Char

/-- Model of `SIZE_MAX + 1 = 2^64` for `size_t` arithmetic. -/
def SZ : Nat := 2 ^ 64

/-- Model of `std::string::npos = SIZE_MAX`. -/
def NPOS : Nat := 2 ^ 64 - 1

/-- First index `≥ i` (in absolute terms) at which the predicate holds,
scanning the list `l` whose head sits at absolute index `i`. -/
def findIdxAux (p : Char → Bool) : Str → Nat → Option Nat
  | [], _ => none
  | x :: xs, i => if p x then some i else findIdxAux p xs (i + 1)

/-- First index `≥ start` at which character `c` occurs in `s`, as an option. -/
def findIdxFrom (s : Str) (c : Char) (start : Nat) : Option Nat :=
  findIdxAux (fun x => x == c) (s.drop start) start

/-- Model of `std::string::find(char, pos)`: index of the first occurrence of
`c` at or after `start`, or `NPOS`. -/
def findFrom (s : Str) (c : Char) (start : Nat) : Nat :=
  (findIdxFrom s c start).getD NPOS

/-- Auxiliary scan for substring search: first absolute index at which `pat`
is a prefix of the remaining text. -/
def findSubAux (pat : Str) : Str → Nat → Option Nat
  | [], i => if pat = [] then some i else none
  | x :: xs, i => if pat.isPrefixOf (x :: xs) then some i else findSubAux pat xs (i + 1)

/-- Model of `std::string::find(const char*)`: index of the first occurrence
of the substring `pat` in `s`, or `NPOS`. -/
def findSub (s : Str) (pat : Str) : Nat :=
  (findSubAux pat s 0).getD NPOS

/-- Model of `std::string::find_first_not_of(set)`. -/
def findFirstNotOf (s : Str) (set : Str) : Nat :=
  (findIdxAux (fun x => !(set.contains x)) s 0).getD NPOS

/-- Model of `std::string::find_last_not_of(set)`. -/
def findLastNotOf (s : Str) (set : Str) : Nat :=
  match findIdxAux (fun x => !(set.contains x)) s.reverse 0 with
  | some j => s.length - 1 - j
  | none => NPOS

/-- Model of `std::string::find_last_of(char)`. -/
def findLastOf (s : Str) (c : Char) : Nat :=
  match findIdxAux (fun x => x == c) s.reverse 0 with
  | some j => s.length - 1 - j
  | none => NPOS

/-- Model of `std::string::substr(pos, count)` (clamped, as in C++). -/
def substr (s : Str) (pos count : Nat) : Str :=
  (s.drop pos).take count

/-- Characters accepted by `isspace` in the default locale. -/
def cppIsSpace (c : Char) : Bool :=
  c == ' ' || c == '\t' || c == '\n' || c == '\x0b' || c == '\x0c' || c == '\r'

/-- Numeric value of a run of decimal digits. -/
def digitsVal (ds : Str) : Nat :=
  ds.foldl (fun acc c => acc * 10 + (c.toNat - 48)) 0

/-- Model of `std::stoi`: skip leading whitespace, accept an optional sign,
parse a run of decimal digits, and require the result to fit in `int`.
`none` models the `std::invalid_argument` / `std::out_of_range` throw. -/
def stoiOpt (s : Str) : Option Int :=
  let t := s.dropWhile cppIsSpace
  let sign : Int := if t.head? = some '-' then -1 else 1
  let t2 := if t.head? = some '-' ∨ t.head? = some '+' then t.tail else t
  let ds := t2.takeWhile Char.isDigit
  if ds = [] then none
  else
    let v : Int := sign * (digitsVal ds : Int)
    if v < -2147483648 ∨ 2147483647 < v then none else some v

/-! ## The record types -/

/-- `struct Item`. -/
structure Item where
  id : Str
  name : Str
  deriving DecidableEq

/-- `struct Monster`; the integer fields default to 0 as in the C++ struct. -/
structure Monster where
  id : Str
  name : Str
  hp : Int := 0
  melee_dice : Int := 0
  melee_dice_sides : Int := 0
  armor : Int := 0
  deriving DecidableEq

/-- `struct Recipe`. -/
structure Recipe where
  id : Str
  result : Str
  components : List (Str × Int)
  deriving DecidableEq

def emptyItem : Item := ⟨[], []⟩

def emptyMonster : Monster := ⟨[], [], 0, 0, 0, 0⟩

def emptyRecipe : Recipe := ⟨[], [], []⟩

/-! ## Key markers searched for by the parsers -/

def kId : Str := ['"', 'i', 'd', '"']

def kStr : Str := ['"', 's', 't', 'r', '"']

def kName : Str := ['"', 'n', 'a', 'm', 'e', '"']

def kResult : Str := ['"', 'r', 'e', 's', 'u', 'l', 't', '"']

def kHp : Str := ['"', 'h', 'p', '"']

def kDice : Str := ['"', 'm', 'e', 'l', 'e', 'e', '_', 'd', 'i', 'c', 'e', '"']

def kSides : Str :=
  ['"', 'm', 'e', 'l', 'e', 'e', '_', 'd', 'i', 'c', 'e', '_', 's', 'i', 'd', 'e', 's', '"']

def kArmor : Str := ['"', 'a', 'r', 'm', 'o', 'r', '"']

/-- The `[ [` component-pair marker of `load_recipes`. -/
def kMarker : Str := ['[', ' ', '[']

/-- Whitespace set used by `load_recipes`' leading trim. -/
def wsST : Str := [' ', '\t']

/-- Whitespace set used by `load_monsters`' `trim` lambda. -/
def wsAll : Str := [' ', '\t', '\n', '\r']

/-! ## The inline string-field extraction of `load_items` / `load_recipes`

The C++ code repeats this block for the `"id"`, `"str"` and `"result"`
fields: from the key position, find the colon, then a first and a second
quote, and take the text strictly between the quotes.  A failed find yields
`npos`, and `npos + 1` wraps to `0` in `size_t` arithmetic. -/

def extractInline (line : Str) (keyPos : Nat) : Option Str :=
  let colon := findFrom line ':' keyPos
  let q1 := findFrom line '"' ((colon + 1) % SZ)
  let q2 := findFrom line '"' ((q1 + 1) % SZ)
  if q1 ≠ NPOS ∧ q2 ≠ NPOS then some (substr line (q1 + 1) (q2 - q1 - 1)) else none

/-! ## `load_items` -/

/-- One iteration of the `load_items` line loop. -/
def itemsStep (st : List Item × Item) (line : Str) : List Item × Item :=
  let idPos := findSub line kId
  let cur1 :=
    if idPos ≠ NPOS then
      match extractInline line idPos with
      | some v => { st.2 with id := v }
      | none => st.2
    else st.2
  let strPos := findSub line kStr
  if strPos ≠ NPOS then
    match extractInline line strPos with
    | some v => (st.1 ++ [{ cur1 with name := v }], emptyItem)
    | none => (st.1, cur1)
  else (st.1, cur1)

def loadItemsGo (st : List Item × Item) : List Str → List Item
  | [] => st.1
  | l :: rest => loadItemsGo (itemsStep st l) rest

/-- `load_items`, acting on the lines of an already-opened file. -/
def load_items (lines : List Str) : List Item :=
  loadItemsGo ([], emptyItem) lines

/-! ## `load_monsters` -/

/-- The `trim` lambda of `load_monsters`. -/
def trimS (s : Str) : Str :=
  let start := findFirstNotOf s wsAll
  let stop := findLastNotOf s wsAll
  if start = NPOS ∨ stop = NPOS then [] else substr s start (stop - start + 1)

/-- The `extract_string_value` lambda of `load_monsters`: split at the first
colon, delete every comma from the remainder, and take the text strictly
between the first and the last quote; fall back to the trimmed remainder. -/
def extract_string_value (s : Str) : Str :=
  let colon := findFrom s ':' 0
  if colon = NPOS then []
  else
    let value := (s.drop (colon + 1)).filter (fun c => !(c == ','))
    let q1 := findFrom value '"' 0
    let q2 := findLastOf value '"'
    if q1 ≠ NPOS ∧ q2 ≠ NPOS ∧ q1 < q2 then substr value (q1 + 1) (q2 - q1 - 1)
    else trimS value

/-- The `extract_int_value` lambda of `load_monsters`: split at the first
colon, delete every comma, erase the leading blank/tab run, and apply
`std::stoi`, with a catch-all returning 0. -/
def extract_int_value (s : Str) : Int :=
  let colon := findFrom s ':' 0
  if colon = NPOS then 0
  else
    let value := (s.drop (colon + 1)).filter (fun c => !(c == ','))
    let value2 :=
      if findFirstNotOf value wsST = NPOS then [] else value.drop (findFirstNotOf value wsST)
    (stoiOpt value2).getD 0

/-- The if/else-if field chain of `load_monsters`, applied to a trimmed line
inside an object. -/
def monsterFields (cur : Monster) (t : Str) : Monster :=
  if findSub t kId ≠ NPOS then { cur with id := extract_string_value t }
  else if findSub t kName ≠ NPOS ∧ findSub t kStr ≠ NPOS then
    { cur with name := extract_string_value t }
  else if findSub t kHp ≠ NPOS then { cur with hp := extract_int_value t }
  else if findSub t kSides ≠ NPOS then { cur with melee_dice_sides := extract_int_value t }
  else if findSub t kDice ≠ NPOS then { cur with melee_dice := extract_int_value t }
  else if findSub t kArmor ≠ NPOS then { cur with armor := extract_int_value t }
  else cur

/-- One iteration of the `load_monsters` line loop over the state
`(monsters, current, in_object)`. -/
def monstersStep : List Monster × Monster × Bool → Str → List Monster × Monster × Bool
  | (ms, cur, inObj), line =>
    let t := trimS line
    if t = [] ∨ t = ['['] ∨ t = [']'] then (ms, cur, inObj)
    else if findFrom t '{' 0 ≠ NPOS then (ms, emptyMonster, true)
    else if findFrom t '}' 0 ≠ NPOS then
      if inObj then
        if cur.id ≠ [] ∧ cur.name ≠ [] then (ms ++ [cur], cur, false) else (ms, cur, false)
      else (ms, cur, inObj)
    else if inObj then (ms, monsterFields cur t, inObj)
    else (ms, cur, inObj)

def loadMonstersGo (st : List Monster × Monster × Bool) : List Str → List Monster
  | [] => st.1
  | l :: rest => loadMonstersGo (monstersStep st l) rest

/-- `load_monsters`, acting on the lines of an already-opened file. -/
def load_monsters (lines : List Str) : List Monster :=
  loadMonstersGo ([], emptyMonster, false) lines

/-! ## `load_recipes`

The component-pair branch calls `std::stoi` without a surrounding
`try`/`catch`, so a quantity text that does not parse throws and aborts the
whole reader: the embedded step is `Option`-valued, `none` meaning the
exception escaped `load_recipes`. -/

/-- The component-pair branch of `load_recipes` on a trimmed line. -/
def componentUpdate (cur : Recipe) (t : Str) : Option Recipe :=
  if findSub t kMarker ≠ NPOS then
    let q1 := findFrom t '"' 0
    let q2 := findFrom t '"' ((q1 + 1) % SZ)
    if q1 ≠ NPOS ∧ q2 ≠ NPOS then
      let compId := substr t (q1 + 1) (q2 - q1 - 1)
      let comma := findFrom t ',' q2
      if comma ≠ NPOS then
        match stoiOpt (t.drop (comma + 1)) with
        | some qty => some { cur with components := cur.components ++ [(compId, qty)] }
        | none => none
      else some cur
    else some cur
  else some cur

/-- The object-open reset and the `"id"` / `"result"` extractions of one
`load_recipes` iteration, applied to the trimmed line. -/
def recipesFieldUpdate (cur : Recipe) (t : Str) : Recipe :=
  let cur0 := if findSub t ['{'] ≠ NPOS then emptyRecipe else cur
  let cur1 :=
    if findSub t kId ≠ NPOS then
      match extractInline t (findSub t kId) with
      | some v => { cur0 with id := v }
      | none => cur0
    else cur0
  if findSub t kResult ≠ NPOS then
    match extractInline t (findSub t kResult) with
    | some v => { cur1 with result := v }
    | none => cur1
  else cur1

/-- One iteration of the `load_recipes` line loop. -/
def recipesStep (st : List Recipe × Recipe) (line : Str) : Option (List Recipe × Recipe) :=
  if findFirstNotOf line wsST = NPOS then some st
  else
    let t := line.drop (findFirstNotOf line wsST)
    match componentUpdate (recipesFieldUpdate st.2 t) t with
    | none => none
    | some cur3 =>
      if findSub t ['}'] ≠ NPOS ∧ cur3.id ≠ [] ∧ cur3.result ≠ [] then
        some (st.1 ++ [cur3], emptyRecipe)
      else some (st.1, cur3)

def loadRecipesGo (st : List Recipe × Recipe) : List Str → Option (List Recipe)
  | [] => some st.1
  | l :: rest =>
    match recipesStep st l with
    | none => none
    | some st' => loadRecipesGo st' rest

/-- `load_recipes`, acting on the lines of an already-opened file;
`none` models the reader being aborted by an uncaught `std::stoi` throw. -/
def load_recipes (lines : List Str) : Option (List Recipe) :=
  loadRecipesGo ([], emptyRecipe) lines

/-! ## File-level wrappers

An unopenable source is the `none` input; the returned second component is
the list of diagnostics written to `stderr`. -/

def failMsg : Str :=
  ['F', 'a', 'i', 'l', 'e', 'd', ' ', 't', 'o', ' ', 'o', 'p', 'e', 'n', ' ']

def openFailMsg (filename : Str) : Str := failMsg ++ filename

def load_items_file (filename : Str) : Option (List Str) → List Item × List Str
  | none => ([], [openFailMsg filename])
  | some lines => (load_items lines, [])

def load_monsters_file (filename : Str) : Option (List Str) → List Monster × List Str
  | none => ([], [openFailMsg filename])
  | some lines => (load_monsters lines, [])

def load_recipes_file (filename : Str) : Option (List Str) → Option (List Recipe) × List Str
  | none => (some [], [openFailMsg filename])
  | some lines => (load_recipes lines, [])

/-! ## Concrete input lines used in the theorems below -/

def singleRatLine : Str :=
  ['{', '\"', 'i', 'd', '\"', ':', '\"', 'r', 'a', 't', '\"', ',', '\"', 'n', 'a', 'm', 'e',
  '\"', ':', '{', '\"', 's', 't', 'r', '\"', ':', '\"', 'R', 'a', 't', '\"', '}', ',', '\"',
  'h', 'p', '\"', ':', '5', '}']

def lbraceLine : Str := ['{']

def rbraceLine : Str := ['}']

def idRatLine : Str :=
  ['\"', 'i', 'd', '\"', ':', ' ', '\"', 'r', 'a', 't', '\"', ',']

def nestedNameLine : Str :=
  ['\"', 'n', 'a', 'm', 'e', '\"', ':', ' ', '{', '\"', 's', 't', 'r', '\"', ':', ' ', '\"',
  'R', 'a', 't', '\"', '}', ',']

def flatNameLine : Str :=
  ['\"', 's', 't', 'r', '\"', ',', ' ', '\"', 'n', 'a', 'm', 'e', '\"', ':', ' ', '\"', 'R',
  'a', 't', '\"']

def hpFiveLine : Str :=
  ['\"', 'h', 'p', '\"', ':', ' ', '5']

def idPlankLine : Str :=
  ['\"', 'i', 'd', '\"', ':', ' ', '\"', 'p', 'l', 'a', 'n', 'k', '\"']

def namePlankLine : Str :=
  ['\"', 'n', 'a', 'm', 'e', '\"', ':', ' ', '{', '\"', 's', 't', 'r', '\"', ':', ' ', '\"',
  'W', 'o', 'o', 'd', 'e', 'n', ' ', 'P', 'l', 'a', 'n', 'k', '\"', '}']

def strRatLine : Str :=
  ['\"', 's', 't', 'r', '\"', ':', ' ', '\"', 'R', 'a', 't', '\"']

def idNoColonLine : Str :=
  ['\"', 'i', 'd', '\"', ' ', 'x']

def strNLine : Str :=
  ['\"', 's', 't', 'r', '\"', ':', ' ', '\"', 'N', '\"']

def hpCommaLine : Str :=
  ['\"', 'h', 'p', '\"', ':', ' ', '1', ',', '2']

def idRLine : Str :=
  ['\"', 'i', 'd', '\"', ':', ' ', '\"', 'r', '\"', ',']

def resultPLine : Str :=
  ['\"', 'r', 'e', 's', 'u', 'l', 't', '\"', ':', ' ', '\"', 'p', '\"', ',']

def badPairLine : Str :=
  ['[', ' ', '[', ' ', '\"', 'p', 'l', 'a', 'n', 'k', '\"', ',', ' ', 'x', ' ', ']', ' ', ']']

def noQuotePairLine : Str :=
  ['[', ' ', '[', ' ', ']', ' ', ']']

def plankPairLine : Str :=
  ['[', ' ', '[', ' ', '\"', 'p', 'l', 'a', 'n', 'k', '\"', ',', ' ', '2', ' ', ']', ' ', ']']

def idALine : Str :=
  ['\"', 'i', 'd', '\"', ':', ' ', '\"', 'a', '\"', ',']

def resultBLine : Str :=
  ['\"', 'r', 'e', 's', 'u', 'l', 't', '\"', ':', ' ', '\"', 'b', '\"', ',']

def sidesLine : Str :=
  ['\"', 'm', 'e', 'l', 'e', 'e', '_', 'd', 'i', 'c', 'e', '_', 's', 'i', 'd', 'e', 's', '\"',
  ':', ' ', '2', ',']

def idMLine : Str :=
  ['\"', 'i', 'd', '\"', ':', ' ', '\"', 'm', '\"', ',']

def flatNameMLine : Str :=
  ['\"', 's', 't', 'r', '\"', ',', ' ', '\"', 'n', 'a', 'm', 'e', '\"', ':', ' ', '\"', 'M',
  '\"']

def idRatNoQuoteLine : Str :=
  ['\"', 'i', 'd', '\"', ':', ' ', 'r', 'a', 't']

def ratStr : Str := ['r', 'a', 't']

/-- The name that `extract_string_value` actually produces from a
`"name": {"str": "Rat"}`-shaped text: the text between the first and last
quote after the colon, commas removed. -/
def garbledRatName : Str :=
  ['s', 't', 'r', '\"', ':', ' ', '\"', 'R', 'a', 't']

def plankStr : Str := ['p', 'l', 'a', 'n', 'k']

def woodenPlankStr : Str :=
  ['W', 'o', 'o', 'd', 'e', 'n', ' ', 'P', 'l', 'a', 'n', 'k']

def aStr : Str := ['a']

def bStr : Str := ['b']

def rStr : Str := ['r']

def pStr : Str := ['p']

def mStr : Str := ['m']

def mNameStr : Str := ['M']

def nStr : Str := ['N']

def idStr : Str := ['i', 'd']

def ratNameStr : Str := ['R', 'a', 't']

/-! ## Spec-side comparison definitions -/

/-- Modelled from the spec (amended C4 wording): find the first colon at or
after the key position; the search for the value's opening quote starts
right after the colon, or at position 0 when the colon lookup failed (the
`npos + 1` wrap-around); the value is the text strictly between that quote
and the next one; only a failed quote lookup extracts nothing. -/
def specExtractInline (line : Str) (keyPos : Nat) : Option Str :=
  let start :=
    match findIdxFrom line ':' keyPos with
    | some c => c + 1
    | none => 0
  match findIdxFrom line '"' start with
  | none => none
  | some q1 =>
    match findIdxFrom line '"' (q1 + 1) with
    | none => none
    | some q2 => some ((line.take q2).drop (q1 + 1))

/-- Modelled from the spec (amended C5 wording): the remainder of the line
after the first colon, with every comma removed and the leading blank/tab
run stripped, parsed with `std::stoi` semantics; 0 on parse failure or on a
missing colon. -/
def intValueSpec (s : Str) : Int :=
  if s.dropWhile (fun c => !(c == ':')) = [] then 0
  else
    (stoiOpt ((((s.dropWhile (fun c => !(c == ':'))).tail.filter
      (fun c => !(c == ','))).dropWhile (fun c => wsST.contains c)))).getD 0

/-- Modelled from the spec: C5's literal wording — remainder after the
colon, strip ONE trailing comma if present, strip leading whitespace, parse
the leading run of decimal digits, 0 on failure. -/
def intValueClaim (s : Str) : Int :=
  match s.dropWhile (fun c => !(c == ':')) with
  | [] => 0
  | _ :: r =>
    let r1 := if r.getLast? = some ',' then r.dropLast else r
    let r2 := r1.dropWhile cppIsSpace
    let ds := r2.takeWhile Char.isDigit
    if ds = [] then 0 else (digitsVal ds : Int)

/-! ## The abort condition of `load_recipes` -/

/-- A trimmed recipe line does not abort the reader: if it carries the
`[ [` marker and its quote and comma lookups succeed, its quantity text
parses under `std::stoi`. -/
def pairTrimmedOk (t : Str) : Bool :=
  if findSub t kMarker ≠ NPOS then
    let q1 := findFrom t '"' 0
    let q2 := findFrom t '"' ((q1 + 1) % SZ)
    if q1 ≠ NPOS ∧ q2 ≠ NPOS then
      let comma := findFrom t ',' q2
      if comma ≠ NPOS then (stoiOpt (t.drop (comma + 1))).isSome else true
    else true
  else true

/-- A raw recipe line does not abort the reader. -/
def pairLineOk (line : Str) : Bool :=
  if findFirstNotOf line wsST = NPOS then true
  else pairTrimmedOk (line.drop (findFirstNotOf line wsST))

/-! ## Lemmas about the scanning primitives -/

theorem findIdxAux_some_bounds {p : Char → Bool} :
    ∀ (l : Str) (i j : Nat), findIdxAux p l i = some j → i ≤ j ∧ j - i < l.length := by
  intro l
  induction l with
  | nil => intro i j h; simp [findIdxAux] at h
  | cons x xs ih =>
    intro i j h
    simp only [findIdxAux] at h
    by_cases hx : p x
    · rw [if_pos hx] at h
      injection h with h
      subst h
      simp
    · rw [if_neg hx] at h
      have hb := ih (i + 1) j h
      simp only [List.length_cons]
      omega

theorem findIdxAux_none_dropWhile {p : Char → Bool} :
    ∀ (l : Str) (i : Nat), findIdxAux p l i = none →
      l.dropWhile (fun x => !(p x)) = [] := by
  intro l
  induction l with
  | nil => intro i _; rfl
  | cons x xs ih =>
    intro i h
    simp only [findIdxAux] at h
    by_cases hx : p x
    · rw [if_pos hx] at h; exact absurd h (by simp)
    · rw [if_neg hx] at h
      rw [List.dropWhile_cons]
      simp only [hx, Bool.not_false, if_true]
      exact ih (i + 1) h

theorem findIdxAux_some_dropWhile {p : Char → Bool} :
    ∀ (l : Str) (i j : Nat), findIdxAux p l i = some j →
      l.dropWhile (fun x => !(p x)) = l.drop (j - i) ∧
        ∃ y ys, l.drop (j - i) = y :: ys ∧ p y = true := by
  intro l
  induction l with
  | nil => intro i j h; simp [findIdxAux] at h
  | cons x xs ih =>
    intro i j h
    simp only [findIdxAux] at h
    by_cases hx : p x
    · rw [if_pos hx] at h
      injection h with h
      subst h
      refine ⟨?_, x, xs, by simp, hx⟩
      rw [List.dropWhile_cons]
      simp [hx]
    · rw [if_neg hx] at h
      have hb := findIdxAux_some_bounds xs (i + 1) j h
      have hrec := ih (i + 1) j h
      have hji : j - i = (j - (i + 1)) + 1 := by omega
      constructor
      · rw [List.dropWhile_cons]
        simp only [hx, Bool.not_false, if_true]
        rw [hji, List.drop_succ_cons]
        exact hrec.1
      · obtain ⟨y, ys, hys, hy⟩ := hrec.2
        exact ⟨y, ys, by rw [hji, List.drop_succ_cons]; exact hys, hy⟩

theorem findIdxFrom_some_bounds {s : Str} {c : Char} {st j : Nat}
    (h : findIdxFrom s c st = some j) : st ≤ j ∧ j < s.length := by
  have hb := findIdxAux_some_bounds (s.drop st) st j h
  have hl : (s.drop st).length = s.length - st := List.length_drop st s
  omega

theorem findSubAux_some_length {pat : Str} :
    ∀ (l : Str) (i j : Nat), findSubAux pat l i = some j → pat.length ≤ l.length := by
  intro l
  induction l with
  | nil =>
    intro i j h
    simp only [findSubAux] at h
    by_cases hp : pat = []
    · simp [hp]
    · rw [if_neg hp] at h; exact absurd h (by simp)
  | cons x xs ih =>
    intro i j h
    simp only [findSubAux] at h
    by_cases hp : pat.isPrefixOf (x :: xs)
    · exact List.IsPrefix.length_le (List.isPrefixOf_iff_prefix.mp hp)
    · rw [if_neg hp] at h
      have := ih (i + 1) j h
      simp only [List.length_cons]
      omega

theorem findSub_ne_NPOS_length {t pat : Str} (h : findSub t pat ≠ NPOS) :
    pat.length ≤ t.length := by
  unfold findSub at h
  cases haux : findSubAux pat t 0 with
  | none => rw [haux] at h; exact absurd rfl h
  | some j => exact findSubAux_some_length t 0 j haux

theorem NPOS_eq : NPOS = 18446744073709551615 := by norm_num [NPOS]

theorem SZ_eq : SZ = 18446744073709551616 := by norm_num [SZ]

theorem extractInline_eq_spec (line : Str) (p : Nat) (hlen : line.length ≤ NPOS) :
    extractInline line p = specExtractInline line p := by
  rw [NPOS_eq] at hlen
  unfold extractInline specExtractInline findFrom
  cases hcol : findIdxFrom line ':' p with
  | none =>
    simp only [hcol, Option.getD_none]
    have h0 : (NPOS + 1) % SZ = 0 := by rw [NPOS_eq, SZ_eq]
    rw [h0]
    cases hq1 : findIdxFrom line '"' 0 with
    | none => simp [hq1]
    | some q1 =>
      have hb1 := findIdxFrom_some_bounds hq1
      have hne1 : q1 ≠ NPOS := by rw [NPOS_eq]; omega
      have h1 : (q1 + 1) % SZ = q1 + 1 := Nat.mod_eq_of_lt (by rw [SZ_eq]; omega)
      simp only [hq1, Option.getD_some, h1]
      cases hq2 : findIdxFrom line '"' (q1 + 1) with
      | none => simp [hq2]
      | some q2 =>
        have hb2 := findIdxFrom_some_bounds hq2
        have hne2 : q2 ≠ NPOS := by rw [NPOS_eq]; omega
        simp only [hq2, Option.getD_some]
        rw [if_pos ⟨hne1, hne2⟩]
        unfold substr
        rw [List.drop_take q2 (q1 + 1) line, Nat.sub_sub]
  | some c =>
    have hbc := findIdxFrom_some_bounds hcol
    have hc1 : (c + 1) % SZ = c + 1 := Nat.mod_eq_of_lt (by rw [SZ_eq]; omega)
    simp only [hcol, Option.getD_some, hc1]
    cases hq1 : findIdxFrom line '"' (c + 1) with
    | none => simp [hq1]
    | some q1 =>
      have hb1 := findIdxFrom_some_bounds hq1
      have hne1 : q1 ≠ NPOS := by rw [NPOS_eq]; omega
      have h1 : (q1 + 1) % SZ = q1 + 1 := Nat.mod_eq_of_lt (by rw [SZ_eq]; omega)
      simp only [hq1, Option.getD_some, h1]
      cases hq2 : findIdxFrom line '"' (q1 + 1) with
      | none => simp [hq2]
      | some q2 =>
        have hb2 := findIdxFrom_some_bounds hq2
        have hne2 : q2 ≠ NPOS := by rw [NPOS_eq]; omega
        simp only [hq2, Option.getD_some]
        rw [if_pos ⟨hne1, hne2⟩]
        unfold substr
        rw [List.drop_take q2 (q1 + 1) line, Nat.sub_sub]

theorem findIdxFrom_zero_none_dropWhile {s : Str} {c : Char}
    (h : findIdxFrom s c 0 = none) : s.dropWhile (fun x => !(x == c)) = [] := by
  unfold findIdxFrom at h
  rw [List.drop_zero] at h
  exact findIdxAux_none_dropWhile s 0 h

theorem findIdxFrom_zero_some_dropWhile {s : Str} {c : Char} {j : Nat}
    (h : findIdxFrom s c 0 = some j) :
    s.dropWhile (fun x => !(x == c)) = c :: s.drop (j + 1) := by
  unfold findIdxFrom at h
  rw [List.drop_zero] at h
  have hd := findIdxAux_some_dropWhile s 0 j h
  simp only [Nat.sub_zero] at hd
  obtain ⟨heq, y, ys, hys, hy⟩ := hd
  have hyc : y = c := by simpa using hy
  subst hyc
  rw [heq, hys]
  have hys' : s.drop (j + 1) = ys := by
    have hdd : s.drop (j + 1) = (s.drop j).drop 1 := by
      rw [List.drop_drop]
    rw [hdd, hys, List.drop_succ_cons, List.drop_zero]
  rw [hys']

theorem erase_leading_ws_eq (v : Str) (hlen : v.length ≤ NPOS) :
    (if findFirstNotOf v wsST = NPOS then [] else v.drop (findFirstNotOf v wsST)) =
      v.dropWhile (fun c => wsST.contains c) := by
  unfold findFirstNotOf
  cases h : findIdxAux (fun x => !(wsST.contains x)) v 0 with
  | none =>
    simp only [h, Option.getD_none, if_pos rfl]
    have hw := findIdxAux_none_dropWhile v 0 h
    simp only [Bool.not_not] at hw
    exact hw.symm
  | some k =>
    have hb := findIdxAux_some_bounds v 0 k h
    have hne : k ≠ NPOS := by rw [NPOS_eq] at *; omega
    simp only [h, Option.getD_some, if_neg hne]
    have hd := findIdxAux_some_dropWhile v 0 k h
    simp only [Bool.not_not, Nat.sub_zero] at hd
    exact hd.1.symm

theorem extract_int_value_eq_spec (s : Str) (hlen : s.length ≤ NPOS) :
    extract_int_value s = intValueSpec s := by
  unfold extract_int_value intValueSpec findFrom
  cases hcol : findIdxFrom s ':' 0 with
  | none =>
    simp only [hcol, Option.getD_none, if_pos rfl]
    rw [findIdxFrom_zero_none_dropWhile hcol]
    simp
  | some j =>
    have hb := findIdxFrom_some_bounds hcol
    have hne : j ≠ NPOS := by rw [NPOS_eq] at *; omega
    simp only [hcol, Option.getD_some, if_neg hne]
    rw [findIdxFrom_zero_some_dropWhile hcol]
    rw [if_neg (List.cons_ne_nil ':' (s.drop (j + 1)))]
    rw [List.tail_cons]
    have hv : ((s.drop (j + 1)).filter (fun c => !(c == ','))).length ≤ NPOS := by
      have h1 : ((s.drop (j + 1)).filter (fun c => !(c == ','))).length ≤
          (s.drop (j + 1)).length := List.length_filter_le _ _
      have h2 : (s.drop (j + 1)).length = s.length - (j + 1) := List.length_drop _ _
      omega
    rw [erase_leading_ws_eq _ hv]

/-! ## Lemmas about `load_monsters` -/

theorem monsterFields_hp (cur : Monster) (t : Str) (h : findSub t kHp = NPOS) :
    (monsterFields cur t).hp = cur.hp := by
  unfold monsterFields
  by_cases h1 : findSub t kId ≠ NPOS
  · rw [if_pos h1]
  · rw [if_neg h1]
    by_cases h2 : findSub t kName ≠ NPOS ∧ findSub t kStr ≠ NPOS
    · rw [if_pos h2]
    · rw [if_neg h2]
      rw [if_neg (fun hc => hc h)]
      by_cases h4 : findSub t kSides ≠ NPOS
      · rw [if_pos h4]
      · rw [if_neg h4]
        by_cases h5 : findSub t kDice ≠ NPOS
        · rw [if_pos h5]
        · rw [if_neg h5]
          by_cases h6 : findSub t kArmor ≠ NPOS
          · rw [if_pos h6]
          · rw [if_neg h6]

theorem monstersStep_fst (st : List Monster × Monster × Bool) (l : Str) :
    (monstersStep st l).1 = st.1 ∨
      ((monstersStep st l).1 = st.1 ++ [st.2.1] ∧ st.2.1.id ≠ [] ∧ st.2.1.name ≠ []) := by
  obtain ⟨ms, cur, inObj⟩ := st
  simp only [monstersStep]
  by_cases h1 : trimS l = [] ∨ trimS l = ['['] ∨ trimS l = [']']
  · rw [if_pos h1]; exact Or.inl rfl
  · rw [if_neg h1]
    by_cases h2 : findFrom (trimS l) '{' 0 ≠ NPOS
    · rw [if_pos h2]; exact Or.inl rfl
    · rw [if_neg h2]
      by_cases h3 : findFrom (trimS l) '}' 0 ≠ NPOS
      · rw [if_pos h3]
        by_cases h4 : inObj = true
        · rw [if_pos h4]
          by_cases h5 : cur.id ≠ [] ∧ cur.name ≠ []
          · rw [if_pos h5]; exact Or.inr ⟨rfl, h5.1, h5.2⟩
          · rw [if_neg h5]; exact Or.inl rfl
        · rw [if_neg h4]; exact Or.inl rfl
      · rw [if_neg h3]
        by_cases h4 : inObj = true
        · rw [if_pos h4]; exact Or.inl rfl
        · rw [if_neg h4]; exact Or.inl rfl

theorem loadMonstersGo_required :
    ∀ (L : List Str) (st : List Monster × Monster × Bool),
      (∀ m ∈ st.1, m.id ≠ [] ∧ m.name ≠ []) →
      ∀ m ∈ loadMonstersGo st L, m.id ≠ [] ∧ m.name ≠ [] := by
  intro L
  induction L with
  | nil => intro st h m hm; exact h m hm
  | cons l rest ih =>
    intro st h m hm
    simp only [loadMonstersGo] at hm
    refine ih (monstersStep st l) ?_ m hm
    rcases monstersStep_fst st l with h1 | ⟨h1, h2, h3⟩
    · rw [h1]; exact h
    · rw [h1]
      intro m' hm'
      rcases List.mem_append.mp hm' with h' | h'
      · exact h m' h'
      · rw [List.mem_singleton.mp h']
        exact ⟨h2, h3⟩

theorem monstersStep_hp (st : List Monster × Monster × Bool) (l : Str)
    (hl : findSub (trimS l) kHp = NPOS)
    (h1 : ∀ m ∈ st.1, m.hp = 0) (h2 : st.2.1.hp = 0) :
    (∀ m ∈ (monstersStep st l).1, m.hp = 0) ∧ (monstersStep st l).2.1.hp = 0 := by
  obtain ⟨ms, cur, inObj⟩ := st
  simp only [monstersStep]
  by_cases ha : trimS l = [] ∨ trimS l = ['['] ∨ trimS l = [']']
  · rw [if_pos ha]; exact ⟨h1, h2⟩
  · rw [if_neg ha]
    by_cases hb : findFrom (trimS l) '{' 0 ≠ NPOS
    · rw [if_pos hb]; exact ⟨h1, rfl⟩
    · rw [if_neg hb]
      by_cases hc : findFrom (trimS l) '}' 0 ≠ NPOS
      · rw [if_pos hc]
        by_cases hd : inObj = true
        · rw [if_pos hd]
          by_cases he : cur.id ≠ [] ∧ cur.name ≠ []
          · rw [if_pos he]
            refine ⟨?_, h2⟩
            intro m' hm'
            rcases List.mem_append.mp hm' with h' | h'
            · exact h1 m' h'
            · rw [List.mem_singleton.mp h']; exact h2
          · rw [if_neg he]; exact ⟨h1, h2⟩
        · rw [if_neg hd]; exact ⟨h1, h2⟩
      · rw [if_neg hc]
        by_cases hd : inObj = true
        · rw [if_pos hd]
          exact ⟨h1, by simpa [monsterFields_hp cur (trimS l) hl] using h2⟩
        · rw [if_neg hd]; exact ⟨h1, h2⟩

theorem loadMonstersGo_hp :
    ∀ (L : List Str) (st : List Monster × Monster × Bool),
      (∀ l ∈ L, findSub (trimS l) kHp = NPOS) →
      (∀ m ∈ st.1, m.hp = 0) → st.2.1.hp = 0 →
      ∀ m ∈ loadMonstersGo st L, m.hp = 0 := by
  intro L
  induction L with
  | nil => intro st _ h1 _ m hm; exact h1 m hm
  | cons l rest ih =>
    intro st hL h1 h2 m hm
    simp only [loadMonstersGo] at hm
    have hstep := monstersStep_hp st l (hL l (by simp)) h1 h2
    exact ih (monstersStep st l) (fun l' hl' => hL l' (by simp [hl'])) hstep.1 hstep.2 m hm

/-! ## Lemmas about `load_items` -/

theorem itemsStep_shift (items : List Item) (cur : Item) (l : Str) :
    itemsStep (items, cur) l =
      (items ++ (itemsStep ([], cur) l).1, (itemsStep ([], cur) l).2) := by
  simp only [itemsStep]
  by_cases hs : findSub l kStr ≠ NPOS
  · rw [if_pos hs, if_pos hs]
    cases hext : extractInline l (findSub l kStr) with
    | none => simp
    | some v => simp
  · rw [if_neg hs, if_neg hs]
    simp

theorem loadItemsGo_append :
    ∀ (L : List Str) (items : List Item) (cur : Item),
      loadItemsGo (items, cur) L = items ++ loadItemsGo ([], cur) L := by
  intro L
  induction L with
  | nil => intro items cur; simp [loadItemsGo]
  | cons l rest ih =>
    intro items cur
    simp only [loadItemsGo]
    rw [itemsStep_shift items cur l]
    rw [ih (items ++ (itemsStep ([], cur) l).1) ((itemsStep ([], cur) l).2)]
    rw [ih ((itemsStep ([], cur) l).1) ((itemsStep ([], cur) l).2)]
    rw [List.append_assoc]

theorem itemsStep_skip (st : List Item × Item) (l : Str)
    (h1 : findSub l kId = NPOS) (h2 : findSub l kStr = NPOS) :
    itemsStep st l = st := by
  simp [itemsStep, h1, h2]

theorem loadItemsGo_skip_all :
    ∀ (mid : List Str) (st : List Item × Item) (L : List Str),
      (∀ l ∈ mid, findSub l kId = NPOS ∧ findSub l kStr = NPOS) →
      loadItemsGo st (mid ++ L) = loadItemsGo st L := by
  intro mid
  induction mid with
  | nil => intro st L _; rfl
  | cons x xs ih =>
    intro st L h
    simp only [List.cons_append, loadItemsGo]
    rw [itemsStep_skip st x (h x (by simp)).1 (h x (by simp)).2]
    exact ih st L (fun l hl => h l (by simp [hl]))

/-! ## Lemmas about `load_recipes` -/

theorem componentUpdate_isSome (cur : Recipe) (t : Str) (h : pairTrimmedOk t = true) :
    (componentUpdate cur t).isSome = true := by
  simp only [componentUpdate]
  simp only [pairTrimmedOk] at h
  by_cases h1 : findSub t kMarker ≠ NPOS
  · rw [if_pos h1] at h ⊢
    by_cases h2 : findFrom t '"' 0 ≠ NPOS ∧
        findFrom t '"' ((findFrom t '"' 0 + 1) % SZ) ≠ NPOS
    · rw [if_pos h2] at h ⊢
      by_cases h3 : findFrom t ',' (findFrom t '"' ((findFrom t '"' 0 + 1) % SZ)) ≠ NPOS
      · rw [if_pos h3] at h ⊢
        cases hst : stoiOpt (t.drop (findFrom t ','
            (findFrom t '"' ((findFrom t '"' 0 + 1) % SZ)) + 1)) with
        | none => rw [hst] at h; exact absurd h (by simp)
        | some q => rfl
      · rw [if_neg h3]; rfl
    · rw [if_neg h2]; rfl
  · rw [if_neg h1]; rfl

theorem recipesStep_isSome (st : List Recipe × Recipe) (l : Str) (h : pairLineOk l = true) :
    (recipesStep st l).isSome = true := by
  simp only [recipesStep]
  simp only [pairLineOk] at h
  by_cases h1 : findFirstNotOf l wsST = NPOS
  · rw [if_pos h1]; rfl
  · rw [if_neg h1] at h ⊢
    cases hcomp : componentUpdate (recipesFieldUpdate st.2 (l.drop (findFirstNotOf l wsST)))
        (l.drop (findFirstNotOf l wsST)) with
    | none =>
      have hsome := componentUpdate_isSome
        (recipesFieldUpdate st.2 (l.drop (findFirstNotOf l wsST)))
        (l.drop (findFirstNotOf l wsST)) h
      rw [hcomp] at hsome
      exact hsome
    | some cur3 =>
      show (if findSub (l.drop (findFirstNotOf l wsST)) ['}'] ≠ NPOS ∧
          cur3.id ≠ [] ∧ cur3.result ≠ [] then
          some (st.1 ++ [cur3], emptyRecipe) else some (st.1, cur3)).isSome = true
      by_cases h2 : findSub (l.drop (findFirstNotOf l wsST)) ['}'] ≠ NPOS ∧
          cur3.id ≠ [] ∧ cur3.result ≠ []
      · rw [if_pos h2]; rfl
      · rw [if_neg h2]; rfl

theorem loadRecipesGo_isSome :
    ∀ (L : List Str) (st : List Recipe × Recipe),
      (∀ l ∈ L, pairLineOk l = true) → (loadRecipesGo st L).isSome = true := by
  intro L
  induction L with
  | nil => intro st _; rfl
  | cons l rest ih =>
    intro st hL
    simp only [loadRecipesGo]
    cases hstep : recipesStep st l with
    | none =>
      have := recipesStep_isSome st l (hL l (by simp))
      rw [hstep] at this
      exact absurd this (by simp)
    | some st' => exact ih st' (fun l' hl' => hL l' (by simp [hl']))

theorem recipesStep_fst (st : List Recipe × Recipe) (l : Str) (st' : List Recipe × Recipe)
    (h : recipesStep st l = some st') :
    st'.1 = st.1 ∨ ∃ c, st'.1 = st.1 ++ [c] ∧ c.id ≠ [] ∧ c.result ≠ [] := by
  simp only [recipesStep] at h
  by_cases h1 : findFirstNotOf l wsST = NPOS
  · rw [if_pos h1] at h
    injection h with h
    rw [← h]
    exact Or.inl rfl
  · rw [if_neg h1] at h
    cases hcomp : componentUpdate (recipesFieldUpdate st.2 (l.drop (findFirstNotOf l wsST)))
        (l.drop (findFirstNotOf l wsST)) with
    | none => rw [hcomp] at h; exact absurd h (by simp)
    | some cur3 =>
      rw [hcomp] at h
      replace h : (if findSub (l.drop (findFirstNotOf l wsST)) ['}'] ≠ NPOS ∧
          cur3.id ≠ [] ∧ cur3.result ≠ [] then
          some (st.1 ++ [cur3], emptyRecipe) else some (st.1, cur3)) = some st' := h
      by_cases h2 : findSub (l.drop (findFirstNotOf l wsST)) ['}'] ≠ NPOS ∧
          cur3.id ≠ [] ∧ cur3.result ≠ []
      · rw [if_pos h2] at h
        injection h with h
        rw [← h]
        exact Or.inr ⟨cur3, rfl, h2.2.1, h2.2.2⟩
      · rw [if_neg h2] at h
        injection h with h
        rw [← h]
        exact Or.inl rfl

theorem loadRecipesGo_required :
    ∀ (L : List Str) (st : List Recipe × Recipe) (out : List Recipe),
      loadRecipesGo st L = some out →
      (∀ r ∈ st.1, r.id ≠ [] ∧ r.result ≠ []) →
      ∀ r ∈ out, r.id ≠ [] ∧ r.result ≠ [] := by
  intro L
  induction L with
  | nil =>
    intro st out h hinv
    simp only [loadRecipesGo] at h
    injection h with h
    rw [← h]
    exact hinv
  | cons l rest ih =>
    intro st out h hinv
    simp only [loadRecipesGo] at h
    cases hstep : recipesStep st l with
    | none => rw [hstep] at h; exact absurd h (by simp)
    | some st' =>
      rw [hstep] at h
      refine ih st' out h ?_
      rcases recipesStep_fst st l st' hstep with h1 | ⟨c, h1, h2, h3⟩
      · rw [h1]; exact hinv
      · rw [h1]
        intro r hr
        rcases List.mem_append.mp hr with h' | h'
        · exact hinv r h'
        · rw [List.mem_singleton.mp h']
          exact ⟨h2, h3⟩

/-! ## Claim C1 -/

/-- Claim C1, counterexample: a component-pair line whose quote and comma
lookups succeed but whose quantity text (` x ] ]`) does not parse as an
integer makes the bare `std::stoi` of `load_recipes` throw, aborting the
read — the reader does not return normally and the line is not silently
skipped. -/
theorem load_recipes_aborts_on_unparsable_quantity :
    load_recipes [lbraceLine, idRLine, resultPLine, badPairLine, rbraceLine] = none := by
  decide

/-- Claim C1 (amended): `load_items` and `load_monsters` always return
normally; `load_recipes` returns normally whenever every component-pair
line either fails its quote or comma lookups (such a line is silently
skipped, adding no pair, and parsing continues) or has a quantity text that
`std::stoi` accepts; a pair line whose lookups succeed but whose quantity
text does not parse aborts the read with the `std::stoi` exception. -/
theorem load_recipes_returns_when_quantities_parse :
    (∀ lines : List Str, (∀ l ∈ lines, pairLineOk l = true) →
      (load_recipes lines).isSome = true) ∧
    load_recipes [lbraceLine, idRLine, resultPLine, noQuotePairLine, rbraceLine] =
      some [⟨rStr, pStr, []⟩] :=
  ⟨fun lines h => loadRecipesGo_isSome lines ([], emptyRecipe) h, by decide⟩

/-- Claim C1, witness: the quantified part of the amended claim applied to
a concrete recipe file whose single pair line parses. -/
theorem load_recipes_returns_when_quantities_parse_witness :
    (load_recipes [lbraceLine, idRLine, resultPLine, plankPairLine, rbraceLine]).isSome = true :=
  load_recipes_returns_when_quantities_parse.1 _ (by decide)

/-! ## Claim C2 -/

/-- Claim C2, counterexample: for the monster file consisting of the single
line `{"id":"rat","name":{"str":"Rat"},"hp":5}`, `load_monsters` returns no
record at all (the claim asserts it returns exactly one), because a line
containing an object-open brace only resets the partial record and the rest
of the line is ignored. -/
theorem load_monsters_single_line_object_yields_nothing :
    load_monsters [singleRatLine] = [] := by decide

/-- Claim C2 (amended): a line containing an object-open brace begins a
fresh record and its remaining content (fields, a closing brace) is
ignored, so the single-line object yields no record; a monster object is
parsed only when its braces stand apart from the field lines, and since the
nested form of the name line itself contains an open brace, such a name
line also resets the record — an object whose name line carries the `name`
and `str` keys without braces yields one record with the absent integer
fields 0. -/
theorem load_monsters_bracketed_objects :
    load_monsters [lbraceLine, idRatLine, flatNameLine, hpFiveLine, rbraceLine] =
      [⟨ratStr, ratNameStr, 5, 0, 0, 0⟩] ∧
    load_monsters [lbraceLine, idRatLine, nestedNameLine, hpFiveLine, rbraceLine] = [] := by
  decide

/-! ## Claim C3 -/

/-- Claim C3, counterexample: `load_items` commits a record the moment a
`"str"` line is parsed without checking `id`, so the one-line file
`"str": "Rat"` emits an Item whose required `id` field is empty — the
claim asserts such a record is emitted as no record at all. -/
theorem load_items_emits_record_with_empty_id :
    load_items [strRatLine] = [⟨[], ratNameStr⟩] ∧ (⟨[], ratNameStr⟩ : Item).id = [] := by
  decide

/-- Claim C3 (amended): for Monster and Recipe records the invariant holds
— a record appears in the output only if its `id` and its `name`
(resp. `result`) are non-empty at the moment of closure; `load_items`
however commits whenever the `str` extraction succeeds, regardless of the
pending `id`. -/
theorem required_fields_nonempty_at_closure :
    (∀ lines : List Str, ∀ m ∈ load_monsters lines, m.id ≠ [] ∧ m.name ≠ []) ∧
    (∀ (lines : List Str) (out : List Recipe), load_recipes lines = some out →
      ∀ r ∈ out, r.id ≠ [] ∧ r.result ≠ []) := by
  constructor
  · intro lines m hm
    exact loadMonstersGo_required lines ([], emptyMonster, false) (by simp) m hm
  · intro lines out h r hr
    exact loadRecipesGo_required lines ([], emptyRecipe) out h (by simp) r hr

/-- Claim C3, witness: the Monster invariant applied to the record produced
by a concrete well-formed monster file. -/
theorem required_fields_nonempty_at_closure_witness :
    (⟨ratStr, ratNameStr, 5, 0, 0, 0⟩ : Monster).id ≠ [] ∧
      (⟨ratStr, ratNameStr, 5, 0, 0, 0⟩ : Monster).name ≠ [] :=
  required_fields_nonempty_at_closure.1
    [lbraceLine, idRatLine, flatNameLine, hpFiveLine, rbraceLine]
    ⟨ratStr, ratNameStr, 5, 0, 0, 0⟩ (by decide)

/-! ## Claim C4 -/

/-- Claim C4, counterexample: on the line `"id" x` the key is found but the
colon lookup fails; the claim says no value is then extracted and the field
stays unchanged, yet `npos + 1` wraps to 0, the quote search restarts at
the line start, and the extracted id is `id` — observable because the item
committed by a following `"str": "N"` line carries id `id` instead of an
empty id. -/
theorem load_items_extracts_despite_failed_colon_lookup :
    findIdxFrom idNoColonLine ':' 0 = none ∧
      load_items [idNoColonLine, strNLine] = [⟨idStr, nStr⟩] := by
  decide

/-- Claim C4 (amended): in `load_items`/`load_recipes` the extraction finds
the quoted key, then the first colon at or after it; the search for the
opening value quote starts right after the colon, or wraps around to
position 0 when the colon lookup failed (`npos + 1 = 0` in `size_t`); the
value is the substring strictly between that quote and the next, and the
field is left unchanged only when one of the two quote lookups fails.  In
`load_monsters`, `extract_string_value` instead splits at the line's first
colon, strips commas, takes the text between the first and last quote, and
on a failed quote lookup falls back to the trimmed remainder rather than
leaving the field unchanged — e.g. `"id": rat` yields `rat`. -/
theorem string_extraction_wraparound :
    (∀ (line : Str) (p : Nat), line.length ≤ NPOS →
      extractInline line p = specExtractInline line p) ∧
    extract_string_value idRatNoQuoteLine = ratStr :=
  ⟨extractInline_eq_spec, by decide⟩

/-- Claim C4, witness: the extraction equivalence applied to the concrete
wrap-around line, where both sides produce the spurious value `id`. -/
theorem string_extraction_wraparound_witness :
    extractInline idNoColonLine 0 = specExtractInline idNoColonLine 0 ∧
      specExtractInline idNoColonLine 0 = some idStr :=
  ⟨string_extraction_wraparound.1 idNoColonLine 0 (by decide), by decide⟩

/-! ## Claim C5 -/

/-- Claim C5, counterexample: `extract_int_value` removes every comma of
the remainder (not one trailing comma), so on `"hp": 1,2` it parses 12,
while the claim's literal rule (strip one trailing comma, parse the leading
digit run) yields 1. -/
theorem extract_int_value_removes_all_commas :
    extract_int_value hpCommaLine = 12 ∧ intValueClaim hpCommaLine = 1 := by decide

/-- Claim C5 (amended): the extracted integer is the remainder of the line
after the first colon with every comma removed and the leading blank/tab
run stripped, parsed with `std::stoi` semantics (optional sign, decimal
digits, `int` range); any parse failure yields 0 through the catch-all, and
integer fields absent from an object keep their default 0. -/
theorem extract_int_value_matches_amended_spec :
    (∀ s : Str, s.length ≤ NPOS → extract_int_value s = intValueSpec s) ∧
    (∀ lines : List Str, (∀ l ∈ lines, findSub (trimS l) kHp = NPOS) →
      ∀ m ∈ load_monsters lines, m.hp = 0) := by
  constructor
  · exact extract_int_value_eq_spec
  · intro lines hL m hm
    exact loadMonstersGo_hp lines ([], emptyMonster, false) hL (by simp) rfl m hm

/-- Claim C5, witness: the equivalence applied to the concrete line
`"hp": 5`, and the default-0 part applied to a monster file without an
`"hp"` line. -/
theorem extract_int_value_matches_amended_spec_witness :
    extract_int_value hpFiveLine = intValueSpec hpFiveLine ∧
      (⟨mStr, mNameStr, 0, 0, 0, 0⟩ : Monster).hp = 0 :=
  ⟨extract_int_value_matches_amended_spec.1 hpFiveLine (by decide),
   extract_int_value_matches_amended_spec.2 [lbraceLine, idMLine, flatNameMLine, rbraceLine]
     (by decide) ⟨mStr, mNameStr, 0, 0, 0, 0⟩ (by decide)⟩

/-! ## Claim C6 -/

/-- Claim C6, counterexample: the line `[ [ ] ]` contains the `[ [` marker
yet appends no pair (its quote lookups fail), so a recipe object containing
it closes with empty components — the claim asserts every marker line
appends exactly one pair. -/
theorem marker_line_without_quotes_appends_no_pair :
    findSub noQuotePairLine kMarker ≠ NPOS ∧
      load_recipes [lbraceLine, idRLine, resultPLine, noQuotePairLine, rbraceLine] =
        some [⟨rStr, pStr, []⟩] := by
  decide

/-- Claim C6 (amended): a line containing the `[ [` marker appends exactly
one pair when its two quote lookups, the comma lookup and the quantity
parse succeed — the id being the first quoted substring and the quantity
parsed after the first comma at or past the closing quote; marker lines
failing a lookup append nothing; `components` accumulates in encounter
order and is never reset before the record closes, so the duplicated
`[ [ "plank", 2 ] ]` line yields the pair `("plank", 2)` twice. -/
theorem component_pairs_append_in_order :
    load_recipes [lbraceLine, idRLine, resultPLine, plankPairLine, plankPairLine, rbraceLine] =
      some [⟨rStr, pStr, [(plankStr, 2), (plankStr, 2)]⟩] := by
  decide

/-! ## Claim C7 -/

/-- Claim C7 (confirmed): an item whose `"id"` line precedes its `"str"`
name line within the same logical record is committed at the moment the
name line is processed, regardless of the remaining lines, and the partial
record resets — `"id": "plank"` followed (after any lines matching neither
key) by the nested name line for `Wooden Plank` contributes the Item
(plank, Wooden Plank), and parsing of the remaining lines restarts from an
empty partial record. -/
theorem item_commits_on_name_line :
    ∀ (mid rest : List Str),
      (∀ l ∈ mid, findSub l kId = NPOS ∧ findSub l kStr = NPOS) →
      load_items (idPlankLine :: (mid ++ namePlankLine :: rest)) =
        ⟨plankStr, woodenPlankStr⟩ :: load_items rest := by
  intro mid rest hmid
  show loadItemsGo ([], emptyItem) (idPlankLine :: (mid ++ namePlankLine :: rest)) = _
  have h1 : loadItemsGo ([], emptyItem) (idPlankLine :: (mid ++ namePlankLine :: rest)) =
      loadItemsGo (itemsStep ([], emptyItem) idPlankLine) (mid ++ namePlankLine :: rest) := rfl
  rw [h1]
  have h2 : itemsStep ([], emptyItem) idPlankLine = ([], ⟨plankStr, []⟩) := by decide
  rw [h2]
  rw [loadItemsGo_skip_all mid ([], ⟨plankStr, []⟩) (namePlankLine :: rest) hmid]
  have h3 : loadItemsGo ([], ⟨plankStr, []⟩) (namePlankLine :: rest) =
      loadItemsGo (itemsStep ([], ⟨plankStr, []⟩) namePlankLine) rest := rfl
  rw [h3]
  have h4 : itemsStep ([], ⟨plankStr, []⟩) namePlankLine =
      ([⟨plankStr, woodenPlankStr⟩], emptyItem) := by decide
  rw [h4]
  rw [loadItemsGo_append rest [⟨plankStr, woodenPlankStr⟩] emptyItem]
  rfl

/-- Claim C7, witness: the scenario applied with no intervening lines and
no remaining lines. -/
theorem item_commits_on_name_line_witness :
    load_items [idPlankLine, namePlankLine] = [⟨plankStr, woodenPlankStr⟩] :=
  item_commits_on_name_line [] [] (by simp)

/-! ## Claim C8 -/

/-- Claim C8 (confirmed): for every unopenable source, each reader returns
an empty output sequence together with the `Failed to open` diagnostic, and
`load_recipes` in particular still returns normally (no exception). -/
theorem unopenable_source_empty_output_with_diagnostic :
    ∀ filename : Str,
      load_items_file filename none = ([], [openFailMsg filename]) ∧
      load_monsters_file filename none = ([], [openFailMsg filename]) ∧
      load_recipes_file filename none = (some [], [openFailMsg filename]) :=
  fun _ => ⟨rfl, rfl, rfl⟩

/-! ## Claim C9 -/

/-- Claim C9 (confirmed): `load_recipes` gates no field extraction on an
inside-object state — a file with `"id"` and `"result"` lines but no
object-open brace still commits a recipe at the closing-brace line, and a
record discarded at a closing brace (missing `result`) keeps its fields
until the next object-open brace, so a later `"result"` line outside any
object completes it and the next closing brace commits it. -/
theorem recipes_fields_ungated_by_object_state :
    load_recipes [idALine, resultBLine, rbraceLine] = some [⟨aStr, bStr, []⟩] ∧
    load_recipes [lbraceLine, idALine, rbraceLine, resultBLine, rbraceLine] =
      some [⟨aStr, bStr, []⟩] := by
  decide

/-! ## Claim C10 -/

/-- Claim C10 (confirmed): inside an object, a scanned line whose trimmed
text contains the key `"melee_dice_sides"` (and none of the earlier keys of
the exclusive else-if chain, nor a brace) updates only `melee_dice_sides`
— `melee_dice`, `id`, `name`, `hp` and `armor` are unchanged, the output
list is unchanged, and the in-object flag stays set; the chain tests
`melee_dice_sides` before `melee_dice`. -/
theorem monster_sides_line_updates_only_sides :
    ∀ (ms : List Monster) (cur : Monster) (line : Str),
      findSub (trimS line) kSides ≠ NPOS →
      findSub (trimS line) kId = NPOS →
      ¬(findSub (trimS line) kName ≠ NPOS ∧ findSub (trimS line) kStr ≠ NPOS) →
      findSub (trimS line) kHp = NPOS →
      findFrom (trimS line) '{' 0 = NPOS →
      findFrom (trimS line) '}' 0 = NPOS →
      monstersStep (ms, cur, true) line =
        (ms, { cur with melee_dice_sides := extract_int_value (trimS line) }, true) := by
  intro ms cur line hsides hid hname hhp hob hcb
  have hlen : kSides.length ≤ (trimS line).length := findSub_ne_NPOS_length hsides
  have hne1 : trimS line ≠ [] := fun he => absurd (he ▸ hlen) (by decide)
  have hne2 : trimS line ≠ ['['] := fun he => absurd (he ▸ hlen) (by decide)
  have hne3 : trimS line ≠ [']'] := fun he => absurd (he ▸ hlen) (by decide)
  simp only [monstersStep]
  rw [if_neg (by rintro (h | h | h); exacts [hne1 h, hne2 h, hne3 h])]
  rw [if_neg (fun hc => hc hob)]
  rw [if_neg (fun hc => hc hcb)]
  rw [if_pos trivial]
  unfold monsterFields
  rw [if_neg (fun hc => hc hid)]
  rw [if_neg hname]
  rw [if_neg (fun hc => hc hhp)]
  rw [if_pos hsides]

/-- Claim C10, witness: the frame property applied to the concrete line
`"melee_dice_sides": 2,` in an empty object. -/
theorem monster_sides_line_updates_only_sides_witness :
    monstersStep ([], emptyMonster, true) sidesLine =
      ([], { emptyMonster with melee_dice_sides := 2 }, true) :=
  (monster_sides_line_updates_only_sides [] emptyMonster sidesLine (by decide) (by decide)
    (by decide) (by decide) (by decide) (by decide)).trans (by decide)

end Survival
